import Mathlib

/-!
Shallow embedding of `pkg/tar/tar.go` (package `tar` of the rkt repository):
the entry extractor `ExtractFile`, the archive walker `ExtractTar`, the
single-file extractor `ExtractFileFromTar`, and the device-number encoder
`makedev`, together with models of the path helpers they call
(`filepath.Clean`, `filepath.Join`, `filepath.Dir`, `strings.HasPrefix`)
and of the filesystem operations they perform (`os.MkdirAll`, `os.OpenFile`
plus `io.Copy`, `os.Link`, `os.Symlink`, `syscall.Mknod`, `Chmod`).

Paths use the Unix separator `/`.  Machine integers (Go `int` on a 64-bit
platform, `uint64`) are modelled as their bit patterns: natural numbers with
explicit `% 2^64` where overflow matters.  Filesystems are association lists
from path keys (segment lists of cleaned paths) to nodes; symbolic links are
stored, never followed (no operation in the claims dereferences one).
-/

namespace RktTar

/-! ## Path helpers (Unix rules of Go `path/filepath` and `strings`) -/

/-- Split a character list into the `/`-separated segments, accumulating the
current segment in reverse.  `splitSeg "a/b".data [] = ["a", "b"]`,
`splitSeg "/a".data [] = ["", "a"]`. -/
def splitSeg (cs : List Char) (cur : List Char) : List String :=
  match cs with
  | [] => [String.mk cur.reverse]
  | c :: rest =>
    if c = '/' then String.mk cur.reverse :: splitSeg rest []
    else splitSeg rest (c :: cur)

/-- The `/`-separated segments of a path string. -/
def splitPath (s : String) : List String := splitSeg s.data []

/-- Whether the path starts with the separator (an absolute path). -/
def isRooted (s : String) : Bool :=
  match s.data with
  | c :: _ => c = '/'
  | [] => false

/-- One step of `filepath.Clean`'s segment processing.  `acc` is the stack of
kept segments, most recent first.  Empty and `.` segments are dropped; `..`
pops a non-`..` segment, is dropped at the root, and accumulates otherwise. -/
def cleanPush (rooted : Bool) (acc : List String) (seg : String) : List String :=
  if seg = "" ∨ seg = "." then acc
  else if seg = ".." then
    match acc with
    | [] => if rooted then [] else [".."]
    | a :: rest => if a = ".." then ".." :: a :: rest else rest
  else seg :: acc

/-- Join segments with `/` (no leading separator). -/
def joinSegs : List String → String
  | [] => ""
  | [s] => s
  | s :: rest => s ++ "/" ++ joinSegs rest

/-- Go `filepath.Clean` on Unix: shortest lexically-equivalent path.
Replaces runs of separators, eliminates `.` and inner `..` segments, drops
`..` at the root; returns `.` for an empty relative result. -/
def goClean (path : String) : String :=
  if path = "" then "."
  else
    let rooted := isRooted path
    let stk := ((splitPath path).foldl (cleanPush rooted) []).reverse
    if stk = [] then (if rooted then "/" else ".")
    else (if rooted then "/" else "") ++ joinSegs stk

/-- Go `filepath.Join` for two elements on Unix: empty elements are skipped,
the rest are joined with `/` and cleaned. -/
def goJoin (a b : String) : String :=
  if a = "" then (if b = "" then "" else goClean b)
  else goClean (a ++ "/" ++ b)

/-- Go `filepath.Dir` on Unix: drop the trailing non-separator characters,
then clean the remainder (so `goDir "a" = "."`, `goDir "/a/b" = "/a"`). -/
def goDir (path : String) : String :=
  goClean (String.mk ((path.data.reverse.dropWhile (fun c => ¬ c = '/')).reverse))

/-- Go `strings.HasPrefix s pre`. -/
def goHasPre (s pre : String) : Bool := pre.data.isPrefixOf s.data

/-- Go `%q` formatting of a plain string (no characters needing escapes). -/
def goQuote (s : String) : String := "\"" ++ s ++ "\""

/-! ## Filesystem model -/

/-- A filesystem node.  Hard links record the path they were linked to and
symbolic links their raw stored target text; neither is ever followed by the
modelled operations. -/
inductive FNode where
  | file (mode : Nat) (content : List Nat)
  | dir (mode : Nat)
  | hardlink (dest : String)
  | symlink (target : String)
  | chardev (mode : Nat) (dev : Nat)
  | blockdev (mode : Nat) (dev : Nat)
deriving DecidableEq, Repr

/-- A filesystem: an association list from path keys to nodes.  A path key is
the segment list of a cleaned path (`pathKey`). -/
abbrev Fs := List (List String × FNode)

/-- The key of a cleaned path: its segment list, with `/` itself mapped to
the root key `[""]`. -/
def pathKey (s : String) : List String :=
  if s = "/" then [""] else splitPath s

def fsLookup (fs : Fs) (k : List String) : Option FNode :=
  match fs with
  | [] => none
  | (k', n) :: rest => if k' = k then some n else fsLookup rest k

def fsInsert (fs : Fs) (k : List String) (n : FNode) : Fs :=
  match fs with
  | [] => [(k, n)]
  | (k', n') :: rest =>
    if k' = k then (k, n) :: rest else (k', n') :: fsInsert rest k n

/-- Process state: the filesystem and the process file-creation mask. -/
structure World where
  fs : Fs
  umask : Nat
deriving DecidableEq, Repr

/-- Mode bits left after the file-creation mask is applied (`mode &^ umask`
for mode bits below 2^32). -/
def applyUmask (mode umask : Nat) : Nat := mode &&& ((2 ^ 32 - 1) ^^^ umask)

/-! ## Errors -/

/-- Go error values reaching the callers of this package.  `errorString` is
a `fmt.Errorf` result (flat: the cause survives only in the message text),
`insecureLink` is the package's `insecureLinkError` type, `pathError` stands
for the OS-level `*os.PathError` / `*os.LinkError` / `syscall.Errno` family. -/
inductive GoError where
  | errorString (msg : String)
  | insecureLink (msg : String)
  | pathError (op : String) (path : String)
deriving DecidableEq, Repr

/-- The `Error()` text used when an error is interpolated with `%v`. -/
def GoError.message : GoError → String
  | .errorString s => s
  | .insecureLink s => s
  | .pathError op p => op ++ " " ++ p

/-- Type recovery of the security error: models a Go type assertion
`err.(insecureLinkError)` (or `errors.As`). -/
def isInsecureLink : GoError → Bool
  | .insecureLink _ => true
  | _ => false

/-! ## `os.MkdirAll` -/

/-- Go `os.MkdirAll` on a path key: succeed if the path is already a
directory, fail with `ENOTDIR` if it exists as something else, otherwise
make the parent recursively and create the directory (mode masked by the
process umask).  The root `/` and the working directory `.` always exist on
a real system, so their keys are treated as present.  The fuel argument only
makes the recursion structural: each recursive step drops the last segment,
so fuel `k.length` (what `mkdirAllSegs` passes) never runs out. -/
def mkdirAllAux (mode umask : Nat) : Nat → List String → Fs → Option GoError × Fs
  | _, [], fs => (none, fs)
  | 0, _ :: _, fs => (none, fs)
  | fuel + 1, s :: rest, fs =>
    match fsLookup fs (s :: rest) with
    | some (.dir _) => (none, fs)
    | some _ => (some (.pathError "mkdir" (joinSegs (s :: rest))), fs)
    | none =>
      if s :: rest = [""] ∨ s :: rest = ["."] then (none, fs)
      else
        match mkdirAllAux mode umask fuel (s :: rest).dropLast fs with
        | (some e, fs₁) => (some e, fs₁)
        | (none, fs₁) =>
          (none, fsInsert fs₁ (s :: rest) (.dir (applyUmask mode umask)))

/-- `os.MkdirAll` on a path key. -/
def mkdirAllSegs (mode umask : Nat) (k : List String) (fs : Fs) :
    Option GoError × Fs :=
  mkdirAllAux mode umask k.length k fs

/-- `os.MkdirAll` on the world: the path is cleaned by every caller. -/
def mkdirAllW (path : String) (mode : Nat) (w : World) : Option GoError × World :=
  match mkdirAllSegs mode w.umask (pathKey path) w.fs with
  | (e, fs₁) => (e, { w with fs := fs₁ })

/-! ## Tar header model -/

/-- The `tar.Header` fields `ExtractFile` reads.  `typeflag` is the raw byte;
`mode` is the permission-bit view exposed by `hdr.FileInfo().Mode()`. -/
structure Header where
  name : String
  typeflag : Nat
  mode : Nat
  linkname : String
  devmajor : Nat
  devminor : Nat
deriving DecidableEq, Repr

/-- `tar.TypeReg` is the byte `'0'`. -/
def typeReg : Nat := 48
/-- `tar.TypeRegA` is the byte `'\x00'`. -/
def typeRegA : Nat := 0
/-- `tar.TypeLink` is the byte `'1'`. -/
def typeLink : Nat := 49
/-- `tar.TypeSymlink` is the byte `'2'`. -/
def typeSymlink : Nat := 50
/-- `tar.TypeChar` is the byte `'3'`. -/
def typeChar : Nat := 51
/-- `tar.TypeBlock` is the byte `'4'`. -/
def typeBlock : Nat := 52
/-- `tar.TypeDir` is the byte `'5'`. -/
def typeDir : Nat := 53

/-- `const DEFAULT_DIR_MODE os.FileMode = 0755`. -/
def DEFAULT_DIR_MODE : Nat := 0o755

/-- `Chmod` on a node: sets the permission bits of file-like nodes.  The two
link node kinds are left untouched (following links is not modelled; no
claim chmods a link). -/
def setNodeMode : FNode → Nat → FNode
  | .file _ c, m => .file m c
  | .dir _, m => .dir m
  | .hardlink d, _ => .hardlink d
  | .symlink t, _ => .symlink t
  | .chardev _ d, m => .chardev m d
  | .blockdev _ d, m => .blockdev m d

/-! ## `makedev` -/

/-- `makedev` from tar.go, which mimics glibc's `gnu_dev_makedev`:
`(minor & 0xff) | (major & 0xfff << 8) | int(uint64(minor & ^0xff) << 12) |
int(uint64(major & ^0xfff) << 32)`.  In Go, `&` and `<<` share a precedence
level and associate left, so `major & 0xfff << 8` is `(major & 0xfff) << 8`;
`^x` is bitwise complement, so for 64-bit `int` bit patterns `^0xff` is
`(2^64 - 1) ^^^ 0xff`; the `uint64` and `int` conversions preserve the bit
pattern and the shifts truncate at 64 bits. -/
def makedev (major minor : Nat) : Nat :=
  (minor &&& 0xff) ||| ((major &&& 0xfff) <<< 8) |||
    (((minor &&& ((2 ^ 64 - 1) ^^^ 0xff)) <<< 12) % 2 ^ 64) |||
    (((major &&& ((2 ^ 64 - 1) ^^^ 0xfff)) <<< 32) % 2 ^ 64)

/-- Modelled from the spec: the host kernel's composite device-number
encoding as the claim states it — the low 8 bits of minor, the low 12 bits
of major shifted to bits 8..19, the minor with its low 8 bits cleared
shifted up by 12, and the major with its low 12 bits cleared shifted up by
32, all truncated to 64 bits. -/
def kernelMakedev (major minor : Nat) : Nat :=
  (minor % 2 ^ 8) ||| ((major % 2 ^ 12) <<< 8) |||
    ((((minor >>> 8) <<< 8) <<< 12) % 2 ^ 64) |||
    ((((major >>> 12) <<< 12) <<< 32) % 2 ^ 64)

/-! ## `ExtractFile` -/

/-- The first statements of `ExtractFile`: `p := filepath.Join(dir, hdr.Name)`
followed by `os.MkdirAll(filepath.Dir(p), DEFAULT_DIR_MODE)` — the parent
directory is created before the type dispatch. -/
def parentStep (p : String) (w : World) : Option GoError × World :=
  mkdirAllW (goDir p) DEFAULT_DIR_MODE w

/-- `ExtractFile(tr, hdr, dir)` from tar.go.  `content` is the byte stream
of the current entry (what `io.Copy`/`ReadAll` would drain from `tr`).
Returns `none` for success and the world after the call.  Branches mirror
the Go `switch` in source order. -/
def ExtractFile (content : List Nat) (hdr : Header) (dir : String) (w : World) :
    Option GoError × World :=
  let p := goJoin dir hdr.name
  match parentStep p w with
  | (some e, w₁) => (some e, w₁)
  | (none, w₁) =>
    if hdr.typeflag = typeReg ∨ hdr.typeflag = typeRegA then
      -- the regular-file case repeats the MkdirAll of the parent
      match parentStep p w₁ with
      | (some e, w₂) => (some e, w₂)
      | (none, w₂) =>
        -- os.OpenFile(p, os.O_CREATE|os.O_RDWR, fi.Mode()); io.Copy(f, tr).
        -- No O_TRUNC: an existing file keeps its mode and is overwritten
        -- from offset 0, keeping any tail beyond the copied length.
        match fsLookup w₂.fs (pathKey p) with
        | some (.file m old) =>
          (none, { w₂ with
            fs := fsInsert w₂.fs (pathKey p)
              (.file m (content ++ old.drop content.length)) })
        | some _ => (some (.pathError "open" p), w₂)
        | none =>
          (none, { w₂ with
            fs := fsInsert w₂.fs (pathKey p)
              (.file (applyUmask hdr.mode w₂.umask) content) })
    else if hdr.typeflag = typeDir then
      match mkdirAllW p hdr.mode w₁ with
      | (some e, w₂) => (some e, w₂)
      | (none, w₂) =>
        -- os.Open(p) then dir.Chmod(fi.Mode())
        match fsLookup w₂.fs (pathKey p) with
        | none => (some (.pathError "open" p), w₂)
        | some n =>
          (none, { w₂ with
            fs := fsInsert w₂.fs (pathKey p) (setNodeMode n hdr.mode) })
    else if hdr.typeflag = typeLink then
      let dest := goJoin dir hdr.linkname
      if goHasPre dest dir = false then
        (some (.insecureLink
          ("insecure link " ++ goQuote p ++ " -> " ++ goQuote hdr.linkname)), w₁)
      else
        -- os.Link(dest, p): fails if dest is missing or p exists
        match fsLookup w₁.fs (pathKey dest) with
        | none => (some (.pathError "link" p), w₁)
        | some _ =>
          match fsLookup w₁.fs (pathKey p) with
          | some _ => (some (.pathError "link" p), w₁)
          | none =>
            (none, { w₁ with fs := fsInsert w₁.fs (pathKey p) (.hardlink dest) })
    else if hdr.typeflag = typeSymlink then
      let dest := goJoin (goDir p) hdr.linkname
      if goHasPre dest dir = false then
        (some (.insecureLink
          ("insecure symlink " ++ goQuote p ++ " -> " ++ goQuote hdr.linkname)), w₁)
      else
        -- os.Symlink(hdr.Linkname, p): stores the raw link text
        match fsLookup w₁.fs (pathKey p) with
        | some _ => (some (.pathError "symlink" p), w₁)
        | none =>
          (none, { w₁ with fs := fsInsert w₁.fs (pathKey p) (.symlink hdr.linkname) })
    else if hdr.typeflag = typeChar then
      -- syscall.Mknod(p, mode|S_IFCHR, makedev(...))
      match fsLookup w₁.fs (pathKey p) with
      | some _ => (some (.pathError "mknod" p), w₁)
      | none =>
        (none, { w₁ with
          fs := fsInsert w₁.fs (pathKey p)
            (.chardev (applyUmask hdr.mode w₁.umask)
              (makedev hdr.devmajor hdr.devminor)) })
    else if hdr.typeflag = typeBlock then
      -- syscall.Mknod(p, mode|S_IFBLK, makedev(...))
      match fsLookup w₁.fs (pathKey p) with
      | some _ => (some (.pathError "mknod" p), w₁)
      | none =>
        (none, { w₁ with
          fs := fsInsert w₁.fs (pathKey p)
            (.blockdev (applyUmask hdr.mode w₁.umask)
              (makedev hdr.devmajor hdr.devminor)) })
    else
      (some (.errorString ("unsupported type: " ++ toString hdr.typeflag)), w₁)

/-! ## `ExtractTar` -/

/-- The entry loop of `ExtractTar`: each archive entry in stream order is
passed to `ExtractFile`; any failure stops the walk, wrapped by
`fmt.Errorf("error extracting tarball: %v", err)` — a flat error carrying
only the message text. -/
def extractLoop (entries : List (Header × List Nat)) (dir : String) (w : World) :
    Option GoError × World :=
  match entries with
  | [] => (none, w)
  | (hdr, content) :: rest =>
    match ExtractFile content hdr dir w with
    | (some e, w₁) =>
      (some (.errorString ("error extracting tarball: " ++ e.message)), w₁)
    | (none, w₁) => extractLoop rest dir w₁

/-- `ExtractTar(tr, dir)` from tar.go: `um := syscall.Umask(0)` zeroes the
process file-creation mask, `defer syscall.Umask(um)` restores it on every
return path; the entry list stands for the successfully decoded entries of
the stream up to `io.EOF`. -/
def ExtractTar (entries : List (Header × List Nat)) (dir : String) (w : World) :
    Option GoError × World :=
  let um := w.umask
  match extractLoop entries dir { w with umask := 0 } with
  | (res, w₁) => (res, { w₁ with umask := um })

/-! ## `ExtractFileFromTar` -/

/-- `ExtractFileFromTar(tr, file)` from tar.go: scan entries in order,
skipping those whose cleaned name differs from the cleaned wanted name; on
the first match return the content for a regular file (`TypeReg` or
`TypeRegA`) and fail otherwise; fail with `"file not found"` at `io.EOF`. -/
def ExtractFileFromTar (entries : List (Header × List Nat)) (file : String) :
    Except GoError (List Nat) :=
  match entries with
  | [] => .error (.errorString "file not found")
  | (hdr, content) :: rest =>
    if goClean hdr.name ≠ goClean file then ExtractFileFromTar rest file
    else if hdr.typeflag = typeReg ∨ hdr.typeflag = typeRegA then .ok content
    else .error (.errorString "requested file not a regular file")

/-! ## Spec-side definitions used to state the claims -/

/-- Modelled from the spec: a path lies (lexically) inside the destination
root when it is the root itself or extends it at a path-segment boundary.
Its negation is the claims' "resolved target lies strictly outside the
destination root". -/
def properlyWithin (path root : String) : Prop :=
  path = root ∨ (root ++ "/").data.isPrefixOf path.data

instance (path root : String) : Decidable (properlyWithin path root) := by
  unfold properlyWithin; infer_instance

/-- The link destination the code checks for containment: for hard links
the target joined to the destination root, for symbolic links the target
joined to the link's own directory. -/
def linkDest (hdr : Header) (dir : String) : String :=
  if hdr.typeflag = typeLink then goJoin dir hdr.linkname
  else goJoin (goDir (goJoin dir hdr.name)) hdr.linkname

/-- The first entry of the archive whose cleaned name matches the cleaned
wanted name. -/
def firstMatch (entries : List (Header × List Nat)) (file : String) :
    Option (Header × List Nat) :=
  entries.find? (fun ec => goClean ec.1.name == goClean file)

/-- A call result that failed with the security error kind. -/
def failsInsecure (r : Option GoError × World) : Prop :=
  ∃ e, r.1 = some e ∧ isInsecureLink e = true

/-! ## Helper lemmas -/

lemma fsLookup_insert_self (fs : Fs) (k : List String) (n : FNode) :
    fsLookup (fsInsert fs k n) k = some n := by
  induction fs with
  | nil => simp [fsInsert, fsLookup]
  | cons p rest ih =>
    obtain ⟨k', n'⟩ := p
    by_cases h : k' = k
    · simp [fsInsert, fsLookup, h]
    · simp [fsInsert, fsLookup, h, ih]

lemma fsLookup_insert_ne (fs : Fs) (k k' : List String) (n : FNode)
    (h : k' ≠ k) : fsLookup (fsInsert fs k n) k' = fsLookup fs k' := by
  induction fs with
  | nil => simp [fsInsert, fsLookup, Ne.symm h]
  | cons p rest ih =>
    obtain ⟨k₀, n₀⟩ := p
    by_cases h₀ : k₀ = k
    · subst h₀
      simp [fsInsert, fsLookup, Ne.symm h]
    · simp [fsInsert, fsLookup, h₀, ih]

/-- `MkdirAll` only writes at the key it is called on and that key's
ancestors, so any strictly longer key is untouched. -/
lemma mkdirAllAux_lookup_of_longer (mode umask : Nat) (fuel : Nat) :
    ∀ (k : List String) (fs : Fs) (k' : List String), k.length < k'.length →
      fsLookup (mkdirAllAux mode umask fuel k fs).2 k' = fsLookup fs k' := by
  induction fuel with
  | zero => intro k fs k' _; cases k <;> rfl
  | succ n ih =>
    intro k fs k' hlt
    match k with
    | [] => rfl
    | s :: rest =>
      have hdl : (s :: rest).dropLast.length < k'.length := by
        simp only [List.length_dropLast, List.length_cons] at hlt ⊢
        omega
      have hne : k' ≠ s :: rest := by
        intro hEq
        have := congrArg List.length hEq
        omega
      simp only [mkdirAllAux]
      split
      · rfl
      · rfl
      · split
        · rfl
        · split
          · next e fs₁ hrec =>
            have := ih (s :: rest).dropLast fs k' hdl
            rw [hrec] at this
            exact this
          · next fs₁ hrec =>
            have := ih (s :: rest).dropLast fs k' hdl
            rw [hrec] at this
            simpa [fsLookup_insert_ne _ _ _ _ hne] using this

lemma mkdirAllSegs_lookup_of_longer (mode umask : Nat) (k : List String)
    (fs : Fs) (k' : List String) (h : k.length < k'.length) :
    fsLookup (mkdirAllSegs mode umask k fs).2 k' = fsLookup fs k' :=
  mkdirAllAux_lookup_of_longer mode umask k.length k fs k' h

/-- On success, `MkdirAll` leaves a directory at its (non-root, non-`.`)
path. -/
lemma mkdirAllAux_dir (mode umask fuel : Nat) (k : List String) (fs : Fs)
    (hk : k ≠ []) (h1 : k ≠ [""]) (h2 : k ≠ ["."])
    (hok : (mkdirAllAux mode umask (fuel + 1) k fs).1 = none) :
    ∃ d, fsLookup (mkdirAllAux mode umask (fuel + 1) k fs).2 k = some (.dir d) := by
  match k with
  | s :: rest =>
    simp only [mkdirAllAux] at hok ⊢
    split at hok
    · next d hl => exact ⟨d, by rw [hl]⟩
    · next hl _ => simp at hok
    · next hl =>
      split at hok
      · next hsp =>
        rcases hsp with hsp | hsp
        · exact absurd hsp h1
        · exact absurd hsp h2
      · next hsp =>
        split at hok
        · next e fs₁ hrec => simp at hok
        · next fs₁ hrec =>
          rw [if_neg hsp]
          exact ⟨applyUmask mode umask, fsLookup_insert_self _ _ _⟩

lemma mkdirAllSegs_dir (mode umask : Nat) (k : List String) (fs : Fs)
    (hk : k ≠ []) (h1 : k ≠ [""]) (h2 : k ≠ ["."])
    (hok : (mkdirAllSegs mode umask k fs).1 = none) :
    ∃ d, fsLookup (mkdirAllSegs mode umask k fs).2 k = some (.dir d) := by
  match k with
  | s :: rest =>
    exact mkdirAllAux_dir mode umask rest.length (s :: rest) fs hk h1 h2 hok

/-- With the file-creation mask zeroed (as `ExtractTar` arranges), recorded
mode bits are applied verbatim. -/
lemma applyUmask_zero (m : Nat) (h : m < 2 ^ 32) : applyUmask m 0 = m := by
  unfold applyUmask
  rw [Nat.xor_zero]
  exact Nat.and_pow_two_sub_one_of_lt_two_pow h

/-- Masking a 64-bit value with the complement of the low `n` ones clears
exactly the low `n` bits. -/
lemma land_comp_low (x n : Nat) (hx : x < 2 ^ 64) (hn : n ≤ 64) :
    x &&& ((2 ^ 64 - 1) ^^^ (2 ^ n - 1)) = (x >>> n) <<< n := by
  apply Nat.eq_of_testBit_eq
  intro i
  simp only [Nat.testBit_and, Nat.testBit_xor, Nat.testBit_two_pow_sub_one,
    Nat.testBit_shiftLeft, Nat.testBit_shiftRight]
  by_cases h1 : i < n
  · have h2 : i < 64 := by omega
    have h3 : ¬ n ≤ i := by omega
    simp [h1, h2, h3]
  · by_cases h2 : i < 64
    · have h3 : n ≤ i := by omega
      have h4 : n + (i - n) = i := by omega
      simp [h1, h2, h3, h4]
    · have h3 : x.testBit i = false := by
        apply Nat.testBit_lt_two_pow
        calc x < 2 ^ 64 := hx
          _ ≤ 2 ^ i := Nat.pow_le_pow_right (by norm_num) (by omega)
      have h4 : x.testBit (n + (i - n)) = false := by
        apply Nat.testBit_lt_two_pow
        calc x < 2 ^ 64 := hx
          _ ≤ 2 ^ (n + (i - n)) := Nat.pow_le_pow_right (by norm_num) (by omega)
      simp [h3, h4]

/-- `mkdirAllW` unpacked: the error and filesystem of the underlying
`mkdirAllSegs` call, with the umask untouched. -/
lemma mkdirAllW_eq (path : String) (m : Nat) (w : World) :
    mkdirAllW path m w =
      ((mkdirAllSegs m w.umask (pathKey path) w.fs).1,
       { w with fs := (mkdirAllSegs m w.umask (pathKey path) w.fs).2 }) := by
  unfold mkdirAllW
  rcases h : mkdirAllSegs m w.umask (pathKey path) w.fs with ⟨e, fs₁⟩
  rfl

lemma parentStep_eq (p : String) (w : World) :
    parentStep p w =
      ((mkdirAllSegs DEFAULT_DIR_MODE w.umask (pathKey (goDir p)) w.fs).1,
       { w with fs := (mkdirAllSegs DEFAULT_DIR_MODE w.umask (pathKey (goDir p)) w.fs).2 }) :=
  mkdirAllW_eq (goDir p) DEFAULT_DIR_MODE w

lemma splitSeg_ne_nil (cs cur : List Char) : splitSeg cs cur ≠ [] := by
  induction cs generalizing cur with
  | nil => simp [splitSeg]
  | cons c rest ih =>
    simp only [splitSeg]
    split
    · simp
    · exact ih _

lemma pathKey_ne_nil (s : String) : pathKey s ≠ [] := by
  unfold pathKey
  split
  · simp
  · exact splitSeg_ne_nil _ _

set_option maxHeartbeats 1600000 in
/-- The symbolic-link branch of `ExtractFile`, reduced: after a successful
parent-directory step, the entry either fails the textual containment check
with the InsecureLink error, collides with an existing node, or stores the
raw link text. -/
lemma extractFile_symlink_eq (content : List Nat) (hdr : Header) (dir : String)
    (w w₁ : World) (ht : hdr.typeflag = typeSymlink)
    (hw : parentStep (goJoin dir hdr.name) w = (none, w₁)) :
    ExtractFile content hdr dir w =
      (if goHasPre (goJoin (goDir (goJoin dir hdr.name)) hdr.linkname) dir = false then
        (some (.insecureLink ("insecure symlink " ++ goQuote (goJoin dir hdr.name) ++
          " -> " ++ goQuote hdr.linkname)), w₁)
      else
        match fsLookup w₁.fs (pathKey (goJoin dir hdr.name)) with
        | some _ => (some (.pathError "symlink" (goJoin dir hdr.name)), w₁)
        | none =>
          (none, World.mk
            (fsInsert w₁.fs (pathKey (goJoin dir hdr.name)) (.symlink hdr.linkname))
            w₁.umask)) := by
  simp only [ExtractFile, hw, ht, typeLink, typeReg, typeRegA, typeDir, typeSymlink]
  norm_num

set_option maxHeartbeats 1600000 in
/-- The hard-link branch of `ExtractFile`, reduced: after a successful
parent-directory step, the entry either fails the textual containment check
with the InsecureLink error, or links to the destination joined to the
destination root. -/
lemma extractFile_hardlink_eq (content : List Nat) (hdr : Header) (dir : String)
    (w w₁ : World) (ht : hdr.typeflag = typeLink)
    (hw : parentStep (goJoin dir hdr.name) w = (none, w₁)) :
    ExtractFile content hdr dir w =
      (if goHasPre (goJoin dir hdr.linkname) dir = false then
        (some (.insecureLink ("insecure link " ++ goQuote (goJoin dir hdr.name) ++
          " -> " ++ goQuote hdr.linkname)), w₁)
      else
        match fsLookup w₁.fs (pathKey (goJoin dir hdr.linkname)) with
        | none => (some (.pathError "link" (goJoin dir hdr.name)), w₁)
        | some _ =>
          match fsLookup w₁.fs (pathKey (goJoin dir hdr.name)) with
          | some _ => (some (.pathError "link" (goJoin dir hdr.name)), w₁)
          | none =>
            (none, World.mk
              (fsInsert w₁.fs (pathKey (goJoin dir hdr.name))
                (.hardlink (goJoin dir hdr.linkname)))
              w₁.umask)) := by
  simp only [ExtractFile, hw, ht, typeLink, typeReg, typeRegA, typeDir, typeSymlink]
  norm_num

/-- When the parent-directory step fails, `ExtractFile` returns its error
unchanged. -/
lemma extractFile_parent_err (content : List Nat) (hdr : Header) (dir : String)
    (w : World) (e : GoError) (w₁ : World)
    (hw : parentStep (goJoin dir hdr.name) w = (some e, w₁)) :
    ExtractFile content hdr dir w = (some e, w₁) := by
  simp only [ExtractFile, hw]

set_option maxHeartbeats 1600000 in
/-- The regular-file branch of `ExtractFile`, reduced: after the two parent
steps, the content is copied into the file at the target path — created
with the entry's (umask-masked) mode when absent, opened without truncation
when present. -/
lemma extractFile_regular_eq (content : List Nat) (hdr : Header) (dir : String)
    (w w₁ w₂ : World) (ht : hdr.typeflag = typeReg ∨ hdr.typeflag = typeRegA)
    (hw : parentStep (goJoin dir hdr.name) w = (none, w₁))
    (hw2 : parentStep (goJoin dir hdr.name) w₁ = (none, w₂)) :
    ExtractFile content hdr dir w =
      (match fsLookup w₂.fs (pathKey (goJoin dir hdr.name)) with
      | some (.file m old) =>
        (none, World.mk (fsInsert w₂.fs (pathKey (goJoin dir hdr.name))
          (.file m (content ++ old.drop content.length))) w₂.umask)
      | some _ => (some (.pathError "open" (goJoin dir hdr.name)), w₂)
      | none =>
        (none, World.mk (fsInsert w₂.fs (pathKey (goJoin dir hdr.name))
          (.file (applyUmask hdr.mode w₂.umask) content)) w₂.umask)) := by
  have hc : hdr.typeflag = typeReg ∨ hdr.typeflag = typeRegA := ht
  simp only [ExtractFile, hw, hw2, if_pos hc]

set_option maxHeartbeats 1600000 in
/-- The directory branch of `ExtractFile` when its own `MkdirAll` succeeds:
an explicit chmod forces the entry's mode on the node at the target path. -/
lemma extractFile_dir_ok (content : List Nat) (hdr : Header) (dir : String)
    (w w₁ w₂ : World) (ht : hdr.typeflag = typeDir)
    (hw : parentStep (goJoin dir hdr.name) w = (none, w₁))
    (hm : mkdirAllW (goJoin dir hdr.name) hdr.mode w₁ = (none, w₂)) :
    ExtractFile content hdr dir w =
      (match fsLookup w₂.fs (pathKey (goJoin dir hdr.name)) with
      | none => (some (.pathError "open" (goJoin dir hdr.name)), w₂)
      | some n =>
        (none, World.mk (fsInsert w₂.fs (pathKey (goJoin dir hdr.name))
          (setNodeMode n hdr.mode)) w₂.umask)) := by
  simp only [ExtractFile, hw, hm, ht, typeReg, typeRegA, typeDir]
  norm_num

set_option maxHeartbeats 1600000 in
/-- The directory branch of `ExtractFile` when its own `MkdirAll` fails:
the error propagates. -/
lemma extractFile_dir_errstep (content : List Nat) (hdr : Header) (dir : String)
    (w w₁ w₂ : World) (e : GoError) (ht : hdr.typeflag = typeDir)
    (hw : parentStep (goJoin dir hdr.name) w = (none, w₁))
    (hm : mkdirAllW (goJoin dir hdr.name) hdr.mode w₁ = (some e, w₂)) :
    ExtractFile content hdr dir w = (some e, w₂) := by
  simp only [ExtractFile, hw, hm, ht, typeReg, typeRegA, typeDir]
  norm_num

/-! ## The claims -/

/-- C4: `makedev` reproduces the kernel's composite device-number encoding
at every 64-bit input pair, and in particular `makedev 1 3 = 0x103` (the
`/dev/null` class) and `makedev 8 1 = 0x801`. -/
theorem makedev_matches_kernel :
    (∀ major minor : Nat, major < 2 ^ 64 → minor < 2 ^ 64 →
      makedev major minor = kernelMakedev major minor) ∧
    makedev 1 3 = 0x103 ∧ makedev 8 1 = 0x801 := by
  refine ⟨?_, by decide, by decide⟩
  intro major minor hmaj hmin
  unfold makedev kernelMakedev
  have e1 : (0xff : Nat) = 2 ^ 8 - 1 := by norm_num
  have e2 : (0xfff : Nat) = 2 ^ 12 - 1 := by norm_num
  rw [e1, e2, land_comp_low minor 8 hmin (by norm_num),
    land_comp_low major 12 hmaj (by norm_num),
    Nat.and_pow_two_sub_one_eq_mod, Nat.and_pow_two_sub_one_eq_mod]

/-- C4 witness: the theorem applied at the spec's anchor pair (8, 1). -/
theorem makedev_matches_kernel_witness :
    makedev 8 1 = kernelMakedev 8 1 :=
  makedev_matches_kernel.1 8 1 (by norm_num) (by norm_num)

/-- C5: `ExtractFileFromTar` returns, for the first entry in stream order
whose cleaned name equals the cleaned wanted name, its content bytes if it
is a regular file and the NotAFile error otherwise, and the NotFound error
when no entry matches. -/
theorem extractFileFromTar_scan (entries : List (Header × List Nat)) (file : String) :
    ExtractFileFromTar entries file =
      (match firstMatch entries file with
      | none => .error (.errorString "file not found")
      | some (hdr, content) =>
        if hdr.typeflag = typeReg ∨ hdr.typeflag = typeRegA then .ok content
        else .error (.errorString "requested file not a regular file")) := by
  induction entries with
  | nil => rfl
  | cons ec rest ih =>
    obtain ⟨hdr, content⟩ := ec
    by_cases h : goClean hdr.name = goClean file
    · simp [ExtractFileFromTar, firstMatch, List.find?_cons, h]
    · simp only [ExtractFileFromTar, firstMatch, List.find?_cons] at ih ⊢
      have hb : (goClean hdr.name == goClean file) = false := by simp [h]
      rw [if_pos h, ih, hb]

/-- C1 (counterexample): a hard-link entry whose resolved destination
`/tmp/outside/secret` lies strictly outside the root `/tmp/out` — while
sharing it as a raw string prefix — is admitted: `ExtractFile` succeeds and
creates the link object at the entry's path instead of failing with an
InsecureLink error. -/
theorem extractFile_outside_root_admitted :
    ¬ properlyWithin (goJoin "/tmp/out" "../outside/secret") "/tmp/out" ∧
    (ExtractFile [] ⟨"lnk", typeLink, 0o644, "../outside/secret", 0, 0⟩ "/tmp/out"
      ⟨[(["", "tmp", "outside", "secret"], .file 0o644 [1])], 0⟩).1 = none ∧
    fsLookup (ExtractFile [] ⟨"lnk", typeLink, 0o644, "../outside/secret", 0, 0⟩ "/tmp/out"
        ⟨[(["", "tmp", "outside", "secret"], .file 0o644 [1])], 0⟩).2.fs
      (pathKey (goJoin "/tmp/out" "lnk")) = some (.hardlink "/tmp/outside/secret") := by
  decide

/-- C1 (amended): the containment check on hard-link and symbolic-link
entries is textual.  Whenever the joined link destination is not a string
prefix extension of the destination root, `ExtractFile` fails with an
InsecureLink error and creates no filesystem object at the entry's path:
its only filesystem effect is the earlier parent-directory creation, which
never touches the entry's own (strictly longer) path key. -/
theorem extractFile_insecure_textual (content : List Nat) (hdr : Header)
    (dir : String) (w : World)
    (htyp : hdr.typeflag = typeLink ∨ hdr.typeflag = typeSymlink)
    (hins : goHasPre (linkDest hdr dir) dir = false)
    (hmk : (parentStep (goJoin dir hdr.name) w).1 = none)
    (hlen : (pathKey (goDir (goJoin dir hdr.name))).length <
      (pathKey (goJoin dir hdr.name)).length) :
    ∃ e, (ExtractFile content hdr dir w).1 = some e ∧ isInsecureLink e = true ∧
      fsLookup (ExtractFile content hdr dir w).2.fs (pathKey (goJoin dir hdr.name)) =
        fsLookup w.fs (pathKey (goJoin dir hdr.name)) := by
  rcases hps : parentStep (goJoin dir hdr.name) w with ⟨e₁, w₁⟩
  have he : e₁ = none := by rw [hps] at hmk; exact hmk
  subst he
  have hw1 : w₁ = { w with fs := (mkdirAllSegs DEFAULT_DIR_MODE w.umask
      (pathKey (goDir (goJoin dir hdr.name))) w.fs).2 } := by
    have h2 := (parentStep_eq (goJoin dir hdr.name) w).symm.trans hps
    injection h2 with ha hb
    exact hb.symm
  have hpres : fsLookup w₁.fs (pathKey (goJoin dir hdr.name)) =
      fsLookup w.fs (pathKey (goJoin dir hdr.name)) := by
    rw [hw1]
    exact mkdirAllSegs_lookup_of_longer _ _ _ _ _ hlen
  rcases htyp with ht | ht
  · have hdest : goHasPre (goJoin dir hdr.linkname) dir = false := by
      unfold linkDest at hins
      rw [if_pos ht] at hins
      exact hins
    rw [extractFile_hardlink_eq content hdr dir w w₁ ht hps, if_pos hdest]
    exact ⟨_, rfl, rfl, hpres⟩
  · have hne : hdr.typeflag ≠ typeLink := by rw [ht]; decide
    have hdest : goHasPre (goJoin (goDir (goJoin dir hdr.name)) hdr.linkname) dir = false := by
      unfold linkDest at hins
      rw [if_neg hne] at hins
      exact hins
    rw [extractFile_symlink_eq content hdr dir w w₁ ht hps, if_pos hdest]
    exact ⟨_, rfl, rfl, hpres⟩

/-- C1 witness: the amended theorem at the claim's own example, a hard link
to `../../etc/passwd` under destination root `/d`. -/
theorem extractFile_insecure_textual_witness :
    ∃ e, (ExtractFile [] ⟨"lnk", typeLink, 0o644, "../../etc/passwd", 0, 0⟩ "/d"
        ⟨[], 0⟩).1 = some e ∧ isInsecureLink e = true ∧
      fsLookup (ExtractFile [] ⟨"lnk", typeLink, 0o644, "../../etc/passwd", 0, 0⟩ "/d"
          ⟨[], 0⟩).2.fs (pathKey (goJoin "/d" "lnk")) =
        fsLookup (World.mk [] 0).fs (pathKey (goJoin "/d" "lnk")) :=
  extractFile_insecure_textual [] ⟨"lnk", typeLink, 0o644, "../../etc/passwd", 0, 0⟩
    "/d" ⟨[], 0⟩ (Or.inl rfl) (by decide) (by decide) (by decide)

/-- C3: for a symbolic-link entry the containment check is evaluated on the
link target joined to the link's own parent directory — for a hard-link
entry, by contrast, on the target joined to the destination root — and a
successful symbolic-link extraction stores the entry's raw `linkname` text
unmodified at the entry's path. -/
theorem extractFile_symlink_resolution (content content' : List Nat)
    (sym lnk : Header) (dir : String) (w w' : World)
    (hsym : sym.typeflag = typeSymlink) (hlnk : lnk.typeflag = typeLink)
    (hmk : (parentStep (goJoin dir sym.name) w).1 = none)
    (hmk' : (parentStep (goJoin dir lnk.name) w').1 = none) :
    (failsInsecure (ExtractFile content sym dir w) ↔
      goHasPre (goJoin (goDir (goJoin dir sym.name)) sym.linkname) dir = false) ∧
    ((ExtractFile content sym dir w).1 = none →
      fsLookup (ExtractFile content sym dir w).2.fs (pathKey (goJoin dir sym.name)) =
        some (.symlink sym.linkname)) ∧
    (failsInsecure (ExtractFile content' lnk dir w') ↔
      goHasPre (goJoin dir lnk.linkname) dir = false) := by
  rcases hps : parentStep (goJoin dir sym.name) w with ⟨e₁, w₁⟩
  have he₁ : e₁ = none := by rw [hps] at hmk; exact hmk
  subst he₁
  rcases hps' : parentStep (goJoin dir lnk.name) w' with ⟨e₂, w₂⟩
  have he₂ : e₂ = none := by rw [hps'] at hmk'; exact hmk'
  subst he₂
  rw [extractFile_symlink_eq content sym dir w w₁ hsym hps,
    extractFile_hardlink_eq content' lnk dir w' w₂ hlnk hps']
  refine ⟨?_, ?_, ?_⟩
  · by_cases hb : goHasPre (goJoin (goDir (goJoin dir sym.name)) sym.linkname) dir = false
    · rw [if_pos hb]
      exact ⟨fun _ => hb, fun _ => ⟨_, rfl, rfl⟩⟩
    · rw [if_neg hb]
      constructor
      · intro hfail
        rcases hfail with ⟨e, he, hie⟩
        rcases hl : fsLookup w₁.fs (pathKey (goJoin dir sym.name)) with _ | n
        · rw [hl] at he
          simp at he
        · rw [hl] at he
          simp only at he
          cases he
          simp [isInsecureLink] at hie
      · intro hc
        exact absurd hc hb
  · by_cases hb : goHasPre (goJoin (goDir (goJoin dir sym.name)) sym.linkname) dir = false
    · rw [if_pos hb]
      intro hc
      simp at hc
    · rw [if_neg hb]
      rcases hl : fsLookup w₁.fs (pathKey (goJoin dir sym.name)) with _ | n
      · intro _
        simp only
        exact fsLookup_insert_self _ _ _
      · intro hc
        simp at hc
  · by_cases hb : goHasPre (goJoin dir lnk.linkname) dir = false
    · rw [if_pos hb]
      exact ⟨fun _ => hb, fun _ => ⟨_, rfl, rfl⟩⟩
    · rw [if_neg hb]
      constructor
      · intro hfail
        rcases hfail with ⟨e, he, hie⟩
        rcases hl : fsLookup w₂.fs (pathKey (goJoin dir lnk.linkname)) with _ | n
        · rw [hl] at he
          simp only at he
          cases he
          simp [isInsecureLink] at hie
        · rw [hl] at he
          rcases hl' : fsLookup w₂.fs (pathKey (goJoin dir lnk.name)) with _ | n'
          · rw [hl'] at he
            simp at he
          · rw [hl'] at he
            simp only at he
            cases he
            simp [isInsecureLink] at hie
      · intro hc
        exact absurd hc hb

/-- C3 witness: a symbolic link `a/s -> b/t` under root `/r` passes the
check computed from its own directory and stores the raw text `b/t`; a hard
link `l -> d/x` under the same root is checked against the root. -/
theorem extractFile_symlink_resolution_witness :
    (failsInsecure (ExtractFile [] ⟨"a/s", typeSymlink, 0o644, "b/t", 0, 0⟩ "/r" ⟨[], 0⟩) ↔
      goHasPre (goJoin (goDir (goJoin "/r" "a/s")) "b/t") "/r" = false) ∧
    ((ExtractFile [] ⟨"a/s", typeSymlink, 0o644, "b/t", 0, 0⟩ "/r" ⟨[], 0⟩).1 = none →
      fsLookup (ExtractFile [] ⟨"a/s", typeSymlink, 0o644, "b/t", 0, 0⟩ "/r"
          ⟨[], 0⟩).2.fs (pathKey (goJoin "/r" "a/s")) = some (.symlink "b/t")) ∧
    (failsInsecure (ExtractFile [] ⟨"l", typeLink, 0o644, "d/x", 0, 0⟩ "/r" ⟨[], 0⟩) ↔
      goHasPre (goJoin "/r" "d/x") "/r" = false) :=
  extractFile_symlink_resolution [] [] ⟨"a/s", typeSymlink, 0o644, "b/t", 0, 0⟩
    ⟨"l", typeLink, 0o644, "d/x", 0, 0⟩ "/r" ⟨[], 0⟩ ⟨[], 0⟩ rfl rfl
    (by decide) (by decide)

/-- C2 (counterexample): extracting a 1-byte regular-file entry `f` with
recorded mode 0644 over an existing `/d/f` of mode 0600 and content
`[1,2,3]` succeeds but leaves content `[9,2,3]` and mode 0600: the file is
opened without truncation (no `O_TRUNC`), so the stale tail survives and
the pre-existing mode is kept — the claim's "regardless of any pre-existing
file" fails on both counts. -/
theorem extractFile_regular_stale_tail :
    (ExtractFile [9] ⟨"f", typeReg, 0o644, "", 0, 0⟩ "/d"
      ⟨[(["", "d"], .dir 0o755), (["", "d", "f"], .file 0o600 [1, 2, 3])], 0⟩).1 = none ∧
    fsLookup (ExtractFile [9] ⟨"f", typeReg, 0o644, "", 0, 0⟩ "/d"
        ⟨[(["", "d"], .dir 0o755), (["", "d", "f"], .file 0o600 [1, 2, 3])], 0⟩).2.fs
      (pathKey (goJoin "/d" "f")) = some (.file 0o600 [9, 2, 3]) ∧
    ¬ ([9, 2, 3] = [9] ∧ (0o600 : Nat) = 0o644) := by
  decide

/-- C2 (amended): when no node pre-exists at the target path (and the mask
is zero, as `ExtractTar` arranges), a successful regular-file extraction
leaves exactly the entry's content bytes and its recorded permission bits
at the target path. -/
theorem extractFile_regular_fresh (content : List Nat) (hdr : Header)
    (dir : String) (w w₁ w₂ : World)
    (htyp : hdr.typeflag = typeReg ∨ hdr.typeflag = typeRegA)
    (hmode : hdr.mode < 2 ^ 32)
    (hps1 : parentStep (goJoin dir hdr.name) w = (none, w₁))
    (hps2 : parentStep (goJoin dir hdr.name) w₁ = (none, w₂))
    (humask : w₂.umask = 0)
    (hnone : fsLookup w₂.fs (pathKey (goJoin dir hdr.name)) = none) :
    (ExtractFile content hdr dir w).1 = none ∧
    fsLookup (ExtractFile content hdr dir w).2.fs (pathKey (goJoin dir hdr.name)) =
      some (.file hdr.mode content) := by
  rw [extractFile_regular_eq content hdr dir w w₁ w₂ htyp hps1 hps2, hnone]
  refine ⟨rfl, ?_⟩
  simp only
  rw [humask, applyUmask_zero hdr.mode hmode]
  exact fsLookup_insert_self _ _ _

/-- C2 witness: a fresh two-byte file `f` extracted under `/d` into an
empty filesystem gets exactly content `[9,8]` and mode 0644. -/
theorem extractFile_regular_fresh_witness :
    (ExtractFile [9, 8] ⟨"f", typeReg, 0o644, "", 0, 0⟩ "/d" ⟨[], 0⟩).1 = none ∧
    fsLookup (ExtractFile [9, 8] ⟨"f", typeReg, 0o644, "", 0, 0⟩ "/d" ⟨[], 0⟩).2.fs
      (pathKey (goJoin "/d" "f")) = some (.file 0o644 [9, 8]) :=
  extractFile_regular_fresh [9, 8] ⟨"f", typeReg, 0o644, "", 0, 0⟩ "/d" ⟨[], 0⟩
    ⟨[(["", "d"], .dir 0o755)], 0⟩ ⟨[(["", "d"], .dir 0o755)], 0⟩
    (Or.inl rfl) (by norm_num) (by decide) (by decide) rfl (by decide)

/-- C6: after a successful directory extraction, the node at the target
path is a directory whose permission bits equal the entry's recorded mode,
also when the directory pre-existed with different bits: the branch forces
the mode with an explicit chmod. -/
theorem extractFile_dir_mode (content : List Nat) (hdr : Header) (dir : String)
    (w : World) (htyp : hdr.typeflag = typeDir)
    (hkey1 : pathKey (goJoin dir hdr.name) ≠ [""])
    (hkey2 : pathKey (goJoin dir hdr.name) ≠ ["."])
    (hok : (ExtractFile content hdr dir w).1 = none) :
    fsLookup (ExtractFile content hdr dir w).2.fs (pathKey (goJoin dir hdr.name)) =
      some (.dir hdr.mode) := by
  rcases hps : parentStep (goJoin dir hdr.name) w with ⟨e₁, w₁⟩
  cases e₁ with
  | some e =>
    rw [extractFile_parent_err content hdr dir w e w₁ hps] at hok
    simp at hok
  | none =>
    rcases hm : mkdirAllW (goJoin dir hdr.name) hdr.mode w₁ with ⟨e₂, w₂⟩
    cases e₂ with
    | some e =>
      rw [extractFile_dir_errstep content hdr dir w w₁ w₂ e htyp hps hm] at hok
      simp at hok
    | none =>
      rw [extractFile_dir_ok content hdr dir w w₁ w₂ htyp hps hm] at hok ⊢
      have h3 := (mkdirAllW_eq (goJoin dir hdr.name) hdr.mode w₁).symm.trans hm
      injection h3 with ha hb
      obtain ⟨d, hd⟩ := mkdirAllSegs_dir hdr.mode w₁.umask
        (pathKey (goJoin dir hdr.name)) w₁.fs (pathKey_ne_nil _) hkey1 hkey2 ha
      have hw2fs : w₂.fs =
          (mkdirAllSegs hdr.mode w₁.umask (pathKey (goJoin dir hdr.name)) w₁.fs).2 := by
        rw [← hb]
      rw [hw2fs, hd]
      exact fsLookup_insert_self _ _ _

/-- C6 witness: a directory entry `x` with recorded mode 0555 extracted
over a pre-existing directory `/d/x` of mode 0700 ends up with mode 0555. -/
theorem extractFile_dir_mode_witness :
    fsLookup (ExtractFile [] ⟨"x", typeDir, 0o555, "", 0, 0⟩ "/d"
        ⟨[(["", "d"], .dir 0o755), (["", "d", "x"], .dir 0o700)], 0⟩).2.fs
      (pathKey (goJoin "/d" "x")) = some (.dir 0o555) :=
  extractFile_dir_mode [] ⟨"x", typeDir, 0o555, "", 0, 0⟩ "/d"
    ⟨[(["", "d"], .dir 0o755), (["", "d", "x"], .dir 0o700)], 0⟩
    rfl (by decide) (by decide) (by decide)

/-- C7: an entry whose type flag is none of the six supported kinds makes
`ExtractFile` fail with the UnsupportedType error naming the raw type code,
leaving only the parent-directory effect; in `ExtractTar` such an entry
aborts the whole walk while previously extracted entries (the directory
`d/` below) remain on disk — no rollback. -/
theorem extractFile_unsupported_type :
    (∀ (content : List Nat) (hdr : Header) (dir : String) (w : World),
      hdr.typeflag ≠ typeReg → hdr.typeflag ≠ typeRegA → hdr.typeflag ≠ typeDir →
      hdr.typeflag ≠ typeLink → hdr.typeflag ≠ typeSymlink → hdr.typeflag ≠ typeChar →
      hdr.typeflag ≠ typeBlock →
      (parentStep (goJoin dir hdr.name) w).1 = none →
      (ExtractFile content hdr dir w).1 =
        some (.errorString ("unsupported type: " ++ toString hdr.typeflag)) ∧
      (ExtractFile content hdr dir w).2 = (parentStep (goJoin dir hdr.name) w).2) ∧
    ((ExtractTar [(⟨"d/", typeDir, 0o755, "", 0, 0⟩, []), (⟨"f", 54, 0o644, "", 0, 0⟩, [])]
        "/r" ⟨[], 0o22⟩).1 =
      some (.errorString "error extracting tarball: unsupported type: 54") ∧
      fsLookup (ExtractTar [(⟨"d/", typeDir, 0o755, "", 0, 0⟩, []),
          (⟨"f", 54, 0o644, "", 0, 0⟩, [])] "/r" ⟨[], 0o22⟩).2.fs ["", "r", "d"] =
        some (.dir 0o755)) := by
  constructor
  · intro content hdr dir w h1 h2 h3 h4 h5 h6 h7 hmk
    rcases hps : parentStep (goJoin dir hdr.name) w with ⟨e₁, w₁⟩
    have he : e₁ = none := by rw [hps] at hmk; exact hmk
    subst he
    have hcond1 : ¬ (hdr.typeflag = typeReg ∨ hdr.typeflag = typeRegA) := by
      rintro (h | h)
      · exact h1 h
      · exact h2 h
    simp only [ExtractFile, hps, if_neg hcond1, if_neg h3, if_neg h4, if_neg h5,
      if_neg h6, if_neg h7]
    exact ⟨by trivial, by trivial⟩
  · decide

/-- C7 witness: the per-entry statement at a FIFO entry (raw type code 54,
the byte `'6'`). -/
theorem extractFile_unsupported_type_witness :
    (ExtractFile [] ⟨"f", 54, 0o644, "", 0, 0⟩ "/r" ⟨[], 0⟩).1 =
      some (.errorString ("unsupported type: " ++ toString (54 : Nat))) ∧
    (ExtractFile [] ⟨"f", 54, 0o644, "", 0, 0⟩ "/r" ⟨[], 0⟩).2 =
      (parentStep (goJoin "/r" "f") ⟨[], 0⟩).2 :=
  extractFile_unsupported_type.1 [] ⟨"f", 54, 0o644, "", 0, 0⟩ "/r" ⟨[], 0⟩
    (by decide) (by decide) (by decide) (by decide) (by decide) (by decide) (by decide)
    (by decide)

/-- C9: the walker destroys the security error kind.  At an insecure hard
link, `ExtractFile` itself returns an error recognisable as InsecureLink,
but the error `ExtractTar` hands its caller is the flat
`fmt.Errorf("error extracting tarball: %v", err)` result, from which the
InsecureLink kind is no longer recoverable — only the message text
survives the wrapping. -/
theorem extractTar_wrapping_loses_kind :
    (∃ e, (ExtractFile [] ⟨"lnk", typeLink, 0o644, "../../etc/passwd", 0, 0⟩ "/d"
        ⟨[], 0⟩).1 = some e ∧ isInsecureLink e = true) ∧
    (∃ e, (ExtractTar [(⟨"lnk", typeLink, 0o644, "../../etc/passwd", 0, 0⟩, [])] "/d"
        ⟨[], 0o22⟩).1 = some e ∧ isInsecureLink e = false ∧
      e.message =
        "error extracting tarball: insecure link \"/d/lnk\" -> \"../../etc/passwd\"") := by
  constructor
  · exact ⟨.insecureLink "insecure link \"/d/lnk\" -> \"../../etc/passwd\"",
      by decide, rfl⟩
  · exact ⟨.errorString
      "error extracting tarball: insecure link \"/d/lnk\" -> \"../../etc/passwd\"",
      by decide, rfl, rfl⟩

/-- C10: `ExtractFile` creates missing parent directories of the target
path (default mode 0755) before dispatching on the entry type, so an entry
that then fails — here: an unsupported type — still leaves the newly
created parent directories on disk; the filesystem state is not unchanged
on error. -/
theorem extractFile_parent_dirs_on_error :
    (∀ (content : List Nat) (hdr : Header) (dir : String) (w : World),
      hdr.typeflag ≠ typeReg → hdr.typeflag ≠ typeRegA → hdr.typeflag ≠ typeDir →
      hdr.typeflag ≠ typeLink → hdr.typeflag ≠ typeSymlink → hdr.typeflag ≠ typeChar →
      hdr.typeflag ≠ typeBlock →
      ∃ e, (ExtractFile content hdr dir w).1 = some e ∧
        (ExtractFile content hdr dir w).2 = (parentStep (goJoin dir hdr.name) w).2) ∧
    (¬ (ExtractFile [] ⟨"a/b/c", 54, 0o644, "", 0, 0⟩ "/d" ⟨[], 0⟩).1 = none ∧
      fsLookup (ExtractFile [] ⟨"a/b/c", 54, 0o644, "", 0, 0⟩ "/d" ⟨[], 0⟩).2.fs
        ["", "d", "a"] = some (.dir DEFAULT_DIR_MODE) ∧
      fsLookup (ExtractFile [] ⟨"a/b/c", 54, 0o644, "", 0, 0⟩ "/d" ⟨[], 0⟩).2.fs
        ["", "d", "a", "b"] = some (.dir DEFAULT_DIR_MODE) ∧
      fsLookup ([] : Fs) ["", "d", "a"] = none) := by
  constructor
  · intro content hdr dir w h1 h2 h3 h4 h5 h6 h7
    have hcond1 : ¬ (hdr.typeflag = typeReg ∨ hdr.typeflag = typeRegA) := by
      rintro (h | h)
      · exact h1 h
      · exact h2 h
    rcases hps : parentStep (goJoin dir hdr.name) w with ⟨e₁, w₁⟩
    cases e₁ with
    | some e =>
      rw [extractFile_parent_err content hdr dir w e w₁ hps]
      exact ⟨e, rfl, rfl⟩
    | none =>
      simp only [ExtractFile, hps, if_neg hcond1, if_neg h3, if_neg h4, if_neg h5,
        if_neg h6, if_neg h7]
      exact ⟨_, by trivial, by trivial⟩
  · decide

/-- C10 witness: the per-entry statement at a FIFO entry `q/r` under `/d`. -/
theorem extractFile_parent_dirs_on_error_witness :
    ∃ e, (ExtractFile [] ⟨"q/r", 54, 0o644, "", 0, 0⟩ "/d" ⟨[], 0⟩).1 = some e ∧
      (ExtractFile [] ⟨"q/r", 54, 0o644, "", 0, 0⟩ "/d" ⟨[], 0⟩).2 =
        (parentStep (goJoin "/d" "q/r") ⟨[], 0⟩).2 :=
  extractFile_parent_dirs_on_error.1 [] ⟨"q/r", 54, 0o644, "", 0, 0⟩ "/d" ⟨[], 0⟩
    (by decide) (by decide) (by decide) (by decide) (by decide) (by decide) (by decide)

/-- C8: the process file-creation mask after `ExtractTar` returns equals its
value before the call, on success and on error alike. -/
theorem extractTar_restores_umask (entries : List (Header × List Nat))
    (dir : String) (w : World) :
    (ExtractTar entries dir w).2.umask = w.umask := by
  unfold ExtractTar
  rcases h : extractLoop entries dir { w with umask := 0 } with ⟨res, w₁⟩
  rfl

end RktTar
